import Mathlib

/-!
# KalkulatorMatriks

A shallow embedding of the matrix calculator of `src/matriks.js` and a
verification of its specification.

A matrix is a JavaScript array of arrays; it is modelled as a list of lists of
cell values.  Numbers are modelled as exact rationals (floating-point rounding,
infinities and signed zero are outside the model); the two non-numeric results
that the source can produce on ill-formed input, `NaN` and `undefined`, are
kept as separate values.  A `throw` is modelled by `Except.error`.
-/

namespace KalkulatorMatriks

/-- A cell value: an exact number, `NaN`, or `undefined` (the result of reading
an array index that is out of range). -/
inductive Val where
  | num (q : ℚ)
  | nan
  | undefined
deriving DecidableEq

/-- The errors that the source can raise.  `typeError` is the engine's
`TypeError` for reading a property of `undefined`; the other four are the
`new Error(...)` thrown by the source, told apart by their message. -/
inductive Err where
  | typeError
  | ordoBeda
  | kolomBaris
  | bukanPersegi
  | singular
deriving DecidableEq

/-- The message carried by each error thrown by the source. -/
def Err.pesan : Err → String
  | .typeError => "Cannot read properties of undefined"
  | .ordoBeda => "Operasi tidak valid: Ordo kedua matriks harus sama untuk penjumlahan."
  | .kolomBaris =>
    "Operasi tidak valid: Jumlah kolom matriks A harus sama dengan jumlah baris matriks B."
  | .bukanPersegi =>
    "Operasi tidak valid: Determinan hanya bisa dihitung pada matriks persegi."
  | .singular => "Matriks singular, tidak memiliki invers."

/-- The error kinds of the specification. -/
inductive ErrorKind where
  | ShapeMismatch
  | NotSquare
  | Singular
deriving DecidableEq

/-- The specification's kind of each thrown error; the engine's `TypeError` has none. -/
def Err.kind : Err → Option ErrorKind
  | .typeError => none
  | .ordoBeda => some .ShapeMismatch
  | .kolomBaris => some .ShapeMismatch
  | .bukanPersegi => some .NotSquare
  | .singular => some .Singular

/-- JavaScript `x + y` on cell values: anything that is not a number gives `NaN`. -/
def Val.add : Val → Val → Val
  | .num a, .num b => .num (a + b)
  | _, _ => .nan

/-- JavaScript `x - y` on cell values. -/
def Val.sub : Val → Val → Val
  | .num a, .num b => .num (a - b)
  | _, _ => .nan

/-- JavaScript `x * y` on cell values. -/
def Val.mul : Val → Val → Val
  | .num a, .num b => .num (a * b)
  | _, _ => .nan

/-- JavaScript unary `-x` on cell values. -/
def Val.neg : Val → Val
  | .num a => .num (-a)
  | _ => .nan

/-- JavaScript `x / y` on cell values.  Division by zero gives an infinity or
`NaN` in JavaScript, neither of which is an exact number: the model returns
`nan` there.  The source divides only by a determinant it has compared with
zero beforehand. -/
def Val.div : Val → Val → Val
  | .num a, .num b => if b = 0 then .nan else .num (a / b)
  | _, _ => .nan

instance : Add Val := ⟨Val.add⟩
instance : Sub Val := ⟨Val.sub⟩
instance : Mul Val := ⟨Val.mul⟩
instance : Neg Val := ⟨Val.neg⟩
instance : Div Val := ⟨Val.div⟩

/-- A matrix as the source represents it: an array of rows. -/
abbrev Matriks := List (List Val)

/-- The expression `A[i].length`: a `TypeError` when `A[i]` is `undefined`. -/
def panjangBaris (A : Matriks) (i : Nat) : Except Err Nat :=
  match A[i]? with
  | some baris => .ok baris.length
  | none => .error .typeError

/-- The expression `A[i][j]`: a `TypeError` when `A[i]` is `undefined`, and
`undefined` when the row exists but has no index `j`. -/
def elemen (A : Matriks) (i j : Nat) : Except Err Val :=
  match A[i]? with
  | some baris => .ok (baris.getD j .undefined)
  | none => .error .typeError

/-- The expression `baris.filter((_, index) => index !== j)`. -/
def saring {α : Type} (baris : List α) (j : Nat) : List α :=
  (baris.enum.filter (fun p => p.1 != j)).map Prod.snd

/-- Source `_isOrdoSama`: `A.length === B.length && A[0].length === B[0].length`. -/
def _isOrdoSama (A B : Matriks) : Except Err Bool :=
  if A.length = B.length then do
    let a ← panjangBaris A 0
    let b ← panjangBaris B 0
    pure (decide (a = b))
  else pure false

/-- Source `_isPersegi`: `A.length === A[0].length`. -/
def _isPersegi (A : Matriks) : Except Err Bool := do
  let a ← panjangBaris A 0
  pure (decide (A.length = a))

/-- Source `tambah`. -/
def tambah (A B : Matriks) : Except Err Matriks := do
  if !(← _isOrdoSama A B) then throw Err.ordoBeda
  (List.range A.length).mapM fun i => do
    (List.range (← panjangBaris A 0)).mapM fun j => do
      let a ← elemen A i j
      let b ← elemen B i j
      pure (a + b)

/-- Source `transpos`. -/
def transpos (A : Matriks) : Except Err Matriks := do
  (List.range (← panjangBaris A 0)).mapM fun j => do
    (List.range A.length).mapM fun i => elemen A i j

/-- Source `kaliSkalar`. -/
def kaliSkalar (A : Matriks) (skalar : Val) : Except Err Matriks := do
  (List.range A.length).mapM fun i => do
    (List.range (← panjangBaris A 0)).mapM fun j => do
      let a ← elemen A i j
      pure (a * skalar)

/-- Source `kaliMatriks`: every cell starts at `0` and accumulates the products
`A[i][k] * B[k][j]` for `k = 0 .. A[0].length - 1`. -/
def kaliMatriks (A B : Matriks) : Except Err Matriks := do
  if (← panjangBaris A 0) ≠ B.length then throw Err.kolomBaris
  let kolomB ← panjangBaris B 0
  (List.range A.length).mapM fun i => do
    (List.range kolomB).mapM fun j => do
      (List.range (← panjangBaris A 0)).foldlM (fun acc k => do
        let a ← elemen A i k
        let b ← elemen B k j
        pure (acc + a * b)) (Val.num 0)

/-- Source `determinan`: two base cases and cofactor expansion along row 0. -/
def determinan (A : Matriks) : Except Err Val :=
  match hP : _isPersegi A with
  | .error e => .error e
  | .ok false => .error .bukanPersegi
  | .ok true =>
    if A.length = 1 then elemen A 0 0
    else if A.length = 2 then do
      let a ← elemen A 0 0
      let d ← elemen A 1 1
      let b ← elemen A 0 1
      let c ← elemen A 1 0
      pure (a * d - b * c)
    else do
      (List.range (← panjangBaris A 0)).foldlM (fun det j => do
        let subMatriks := (A.drop 1).map (fun baris => saring baris j)
        let tanda : Val := if j % 2 = 0 then .num 1 else .num (-1)
        let a ← elemen A 0 j
        let d ← determinan subMatriks
        pure (det + tanda * a * d)) (Val.num 0)
termination_by A.length
decreasing_by
  have hpos : 0 < A.length := by
    cases A with
    | nil => simp [_isPersegi, panjangBaris, bind, Except.bind] at hP
    | cons r rest => simp
  simp only [List.length_map, List.length_drop]
  omega

/-- Source `invers`. -/
def invers (A : Matriks) : Except Err Matriks := do
  let det ← determinan A
  if det = Val.num 0 then throw Err.singular
  if A.length = 2 then
    let a11 ← elemen A 1 1
    let a01 ← elemen A 0 1
    let a10 ← elemen A 1 0
    let a00 ← elemen A 0 0
    let adj : Matriks := [[a11, -a01], [-a10, a00]]
    kaliSkalar adj (Val.num 1 / det)
  else
    let kofaktor ← (List.range A.length).mapM fun i => do
      (List.range A.length).mapM fun j => do
        let subMatriks := (saring A i).map (fun baris => saring baris j)
        let tanda : Val := if (i + j) % 2 = 0 then .num 1 else .num (-1)
        let d ← determinan subMatriks
        pure (tanda * d)
    let adjoint ← transpos kofaktor
    kaliSkalar adjoint (Val.num 1 / det)

/-- The subtraction of the form adapter (`src/script.js`, `case 'kurang'`):
`negB = kaliSkalar(matriksB, -1)` followed by `tambah(matriksA, negB)`. -/
def kurang (A B : Matriks) : Except Err Matriks := do
  let negB ← kaliSkalar B (Val.num (-1))
  tambah A negB

/-! ## Vocabulary of the specification -/

/-- A matrix of exact numbers, as a value of the source's representation. -/
def ofQ (A : List (List ℚ)) : Matriks := A.map (fun baris => baris.map Val.num)

/-- Rectangular with `m` rows and `n` columns: `m` rows, each of length `n`. -/
def IsRect {α : Type} (m n : Nat) (A : List (List α)) : Prop :=
  A.length = m ∧ ∀ baris ∈ A, baris.length = n

instance {α : Type} (m n : Nat) (A : List (List α)) : Decidable (IsRect m n A) := by
  unfold IsRect; infer_instance

/-- The cell that `A[i][j]` reads when row `i` exists. -/
def sel (A : Matriks) (i j : Nat) : Val := (A.getD i []).getD j .undefined

/-- Entry `(i, j)` of a matrix of exact numbers. -/
def selQ (A : List (List ℚ)) (i j : Nat) : ℚ := (A.getD i []).getD j 0

/-- The length of the first row. -/
def kolom {α : Type} (A : List (List α)) : Nat := (A.getD 0 []).length

/-- The `m`-by-`n` array of arrays whose cell `(i, j)` is `f i j`. -/
def tabel {α : Type} (m n : Nat) (f : Nat → Nat → α) : List (List α) :=
  (List.range m).map fun i => (List.range n).map fun j => f i j

/-- A rectangular list of lists read as a mathematical matrix. -/
def toMatrix (m n : Nat) (A : List (List ℚ)) : Matrix (Fin m) (Fin n) ℚ :=
  fun i j => selQ A i j

/-- The `n`-by-`n` identity matrix: `1` on the diagonal and `0` elsewhere. -/
def identitas (n : Nat) : List (List ℚ) := tabel n n fun i j => if i = j then 1 else 0

/-- The minor of a matrix of exact numbers: row `i` and column `j` removed. -/
def minorQ (A : List (List ℚ)) (i j : Nat) : List (List ℚ) :=
  (A.eraseIdx i).map (fun baris => baris.eraseIdx j)

/-- The minor that the source forms before each recursive call: row `r` and column `c`
filtered out of `A`. -/
def minor (A : Matriks) (r c : Nat) : Matriks :=
  (saring A r).map (fun baris => saring baris c)

/-! ## Basic facts about the embedding -/

@[simp]
theorem bind_ok {ε α β : Type} (a : α) (f : α → Except ε β) :
    (Except.ok a >>= f) = f a := rfl

@[simp]
theorem bind_error {ε α β : Type} (e : ε) (f : α → Except ε β) :
    (Except.error e >>= f) = Except.error e := rfl

@[simp]
theorem pure_eq_ok {ε α : Type} (a : α) : (pure a : Except ε α) = Except.ok a := rfl

@[simp]
theorem throw_eq_error {ε α : Type} (e : ε) :
    (throw e : Except ε α) = Except.error e := rfl

theorem mapM_ok {ε α β : Type} (f : α → Except ε β) (g : α → β) (l : List α)
    (h : ∀ x ∈ l, f x = .ok (g x)) : l.mapM f = .ok (l.map g) := by
  induction l with
  | nil => rfl
  | cons a t ih =>
    have h1 := h a (List.mem_cons_self _ _)
    have h2 := ih (fun x hx => h x (List.mem_cons_of_mem _ hx))
    rw [List.mapM_cons, h1, h2]
    rfl

theorem foldlM_ok {ε α β : Type} (f : β → α → Except ε β) (g : β → α → β) (l : List α)
    (h : ∀ x ∈ l, ∀ b, f b x = .ok (g b x)) (b : β) :
    l.foldlM f b = .ok (l.foldl g b) := by
  induction l generalizing b with
  | nil => rfl
  | cons a t ih =>
    have h1 := h a (List.mem_cons_self _ _) b
    have h2 := ih (fun x hx => h x (List.mem_cons_of_mem _ hx))
    simp [List.foldlM_cons, h1, h2]

theorem elemen_of_lt {A : Matriks} {i : Nat} (h : i < A.length) (j : Nat) :
    elemen A i j = .ok (sel A i j) := by
  simp [elemen, sel, List.getElem?_eq_getElem h, List.getD_eq_getElem?_getD]

theorem elemen_of_ge {A : Matriks} {i : Nat} (h : A.length ≤ i) (j : Nat) :
    elemen A i j = .error .typeError := by
  simp [elemen, List.getElem?_eq_none h]

theorem panjangBaris_zero {A : Matriks} (h : 0 < A.length) :
    panjangBaris A 0 = .ok (kolom A) := by
  cases A with
  | nil => simp at h
  | cons r t => simp [panjangBaris, kolom]

theorem panjangBaris_nil : panjangBaris [] 0 = .error .typeError := rfl

theorem length_tabel {α : Type} (m n : Nat) (f : Nat → Nat → α) : (tabel m n f).length = m := by
  simp [tabel]

theorem isRect_tabel {α : Type} (m n : Nat) (f : Nat → Nat → α) : IsRect m n (tabel m n f) := by
  refine ⟨length_tabel m n f, ?_⟩
  intro baris hb
  simp only [tabel, List.mem_map, List.mem_range] at hb
  obtain ⟨i, _, rfl⟩ := hb
  simp

theorem kolom_tabel {α : Type} {m : Nat} (hm : 0 < m) (n : Nat) (f : Nat → Nat → α) :
    kolom (tabel m n f) = n := by
  obtain ⟨k, rfl⟩ : ∃ k, m = k + 1 := ⟨m - 1, by omega⟩
  simp [kolom, tabel, List.range_succ_eq_map]

theorem sel_tabel {m n : Nat} (f : Nat → Nat → Val) {i j : Nat} (hi : i < m) (hj : j < n) :
    sel (tabel m n f) i j = f i j := by
  simp [sel, tabel, List.getD_eq_getElem?_getD, List.getElem?_map, List.getElem?_range, hi, hj]

theorem selQ_tabel {m n : Nat} (f : Nat → Nat → ℚ) {i j : Nat} (hi : i < m) (hj : j < n) :
    selQ (tabel m n f) i j = f i j := by
  simp [selQ, tabel, List.getD_eq_getElem?_getD, List.getElem?_map, List.getElem?_range, hi, hj]

theorem ofQ_tabel (m n : Nat) (f : Nat → Nat → ℚ) :
    ofQ (tabel m n f) = tabel m n (fun i j => Val.num (f i j)) := by
  simp [ofQ, tabel]

theorem length_ofQ (A : List (List ℚ)) : (ofQ A).length = A.length := by simp [ofQ]

theorem kolom_ofQ (A : List (List ℚ)) : kolom (ofQ A) = kolom A := by
  cases A <;> simp [kolom, ofQ]

theorem kolom_of_isRect {α : Type} {m n : Nat} {A : List (List α)} (h : IsRect m n A)
    (hm : 0 < m) : kolom A = n := by
  obtain ⟨hl, hr⟩ := h
  cases A with
  | nil => simp at hl; omega
  | cons r t => simpa [kolom] using hr r (List.mem_cons_self _ _)

theorem sel_ofQ {m n : Nat} {A : List (List ℚ)} (h : IsRect m n A) {i j : Nat}
    (hi : i < m) (hj : j < n) : sel (ofQ A) i j = Val.num (selQ A i j) := by
  obtain ⟨hl, hr⟩ := h
  have hi' : i < A.length := by omega
  have hrow : (A[i]).length = n := hr _ (List.getElem_mem _)
  have hj' : j < (A[i]).length := by omega
  simp [sel, selQ, ofQ, List.getD_eq_getElem?_getD, List.getElem?_map,
    List.getElem?_eq_getElem hi', List.getElem?_eq_getElem hj']

theorem tambah_eq {A B : Matriks} (hlen : A.length = B.length) (hpos : 0 < A.length)
    (hk : kolom A = kolom B) :
    tambah A B = .ok (tabel A.length (kolom A) fun i j => sel A i j + sel B i j) := by
  have hB : 0 < B.length := by omega
  simp only [tambah, _isOrdoSama, hlen, panjangBaris_zero hpos, panjangBaris_zero hB, hk,
    if_true, bind_ok, pure_eq_ok, decide_True, Bool.not_true, Bool.false_eq_true, if_false]
  apply mapM_ok
  intro i hi
  apply mapM_ok
  intro j _
  rw [List.mem_range] at hi
  rw [elemen_of_lt (by omega), elemen_of_lt (by omega)]
  rfl

theorem tambah_err_baris {A B : Matriks} (hlen : A.length ≠ B.length) :
    tambah A B = .error .ordoBeda := by
  simp [tambah, _isOrdoSama, hlen]

theorem tambah_err_kolom {A B : Matriks} (hlen : A.length = B.length) (hpos : 0 < A.length)
    (hk : kolom A ≠ kolom B) : tambah A B = .error .ordoBeda := by
  have hB : 0 < B.length := by omega
  simp [tambah, _isOrdoSama, hlen, panjangBaris_zero hpos, panjangBaris_zero hB, hk]

theorem kaliSkalar_eq (A : Matriks) (s : Val) :
    kaliSkalar A s = .ok (tabel A.length (kolom A) fun i j => sel A i j * s) := by
  unfold kaliSkalar
  apply mapM_ok
  intro i hi
  rw [List.mem_range] at hi
  rw [panjangBaris_zero (by omega)]
  simp only [bind_ok]
  apply mapM_ok
  intro j _
  rw [elemen_of_lt hi]
  rfl

theorem transpos_eq {A : Matriks} (hpos : 0 < A.length) :
    transpos A = .ok (tabel (kolom A) A.length fun j i => sel A i j) := by
  unfold transpos
  rw [panjangBaris_zero hpos]
  simp only [bind_ok]
  apply mapM_ok
  intro j _
  apply mapM_ok
  intro i hi
  rw [List.mem_range] at hi
  rw [elemen_of_lt hi]

theorem kaliMatriks_eq {A B : Matriks} (hpos : 0 < A.length) (hB : 0 < B.length)
    (hk : kolom A = B.length) :
    kaliMatriks A B = .ok (tabel A.length (kolom B) fun i j =>
      (List.range (kolom A)).foldl (fun acc k => acc + sel A i k * sel B k j) (Val.num 0)) := by
  unfold kaliMatriks
  rw [panjangBaris_zero hpos, panjangBaris_zero hB]
  simp only [bind_ok, hk, ne_eq, not_true_eq_false, if_false]
  apply mapM_ok
  intro i hi
  apply mapM_ok
  intro j _
  rw [List.mem_range] at hi
  rw [← hk]
  apply foldlM_ok
  intro k hkk acc
  rw [List.mem_range] at hkk
  rw [elemen_of_lt hi, elemen_of_lt (by omega)]
  rfl

theorem kaliMatriks_err {A B : Matriks} (hpos : 0 < A.length) (hk : kolom A ≠ B.length) :
    kaliMatriks A B = .error .kolomBaris := by
  simp [kaliMatriks, panjangBaris_zero hpos, hk]

@[simp]
theorem num_add (a b : ℚ) : Val.num a + Val.num b = Val.num (a + b) := rfl
@[simp]
theorem num_sub (a b : ℚ) : Val.num a - Val.num b = Val.num (a - b) := rfl
@[simp]
theorem num_mul (a b : ℚ) : Val.num a * Val.num b = Val.num (a * b) := rfl
@[simp]
theorem num_neg (a : ℚ) : -Val.num a = Val.num (-a) := rfl
theorem num_div (a : ℚ) {b : ℚ} (hb : b ≠ 0) : Val.num a / Val.num b = Val.num (a / b) := by
  show Val.div _ _ = _
  simp [Val.div, hb]

theorem foldl_range_num (g : Nat → Val) (f : Nat → ℚ) (n : Nat)
    (h : ∀ k, k < n → g k = Val.num (f k)) (a : ℚ) :
    (List.range n).foldl (fun acc k => acc + g k) (Val.num a)
      = Val.num (a + ∑ k in Finset.range n, f k) := by
  induction n with
  | zero => simp
  | succ n ih =>
    rw [List.range_succ, List.foldl_append, ih (fun k hk => h k (by omega)),
      Finset.sum_range_succ]
    simp [h n (by omega), add_assoc]

theorem tambah_ofQ {m n : Nat} {A B : List (List ℚ)} (hm : 1 ≤ m)
    (hA : IsRect m n A) (hB : IsRect m n B) :
    tambah (ofQ A) (ofQ B) = .ok (ofQ (tabel m n fun i j => selQ A i j + selQ B i j)) := by
  have hlA : (ofQ A).length = m := by rw [length_ofQ]; exact hA.1
  have hlB : (ofQ B).length = m := by rw [length_ofQ]; exact hB.1
  have hkA : kolom (ofQ A) = n := by rw [kolom_ofQ]; exact kolom_of_isRect hA hm
  have hkB : kolom (ofQ B) = n := by rw [kolom_ofQ]; exact kolom_of_isRect hB hm
  rw [tambah_eq (by omega) (by omega) (by omega), hlA, hkA, ofQ_tabel]
  congr 1
  simp only [tabel]
  apply List.map_congr_left
  intro i hi
  apply List.map_congr_left
  intro j hj
  rw [List.mem_range] at hi hj
  rw [sel_ofQ hA hi hj, sel_ofQ hB hi hj, num_add]

theorem kaliMatriks_ofQ {m n p : Nat} {A B : List (List ℚ)} (hm : 1 ≤ m) (hn : 1 ≤ n)
    (hA : IsRect m n A) (hB : IsRect n p B) :
    kaliMatriks (ofQ A) (ofQ B)
      = .ok (ofQ (tabel m p fun i j => ∑ k in Finset.range n, selQ A i k * selQ B k j)) := by
  have hlA : (ofQ A).length = m := by rw [length_ofQ]; exact hA.1
  have hlB : (ofQ B).length = n := by rw [length_ofQ]; exact hB.1
  have hkA : kolom (ofQ A) = n := by rw [kolom_ofQ]; exact kolom_of_isRect hA hm
  have hkB : kolom (ofQ B) = p := by rw [kolom_ofQ]; exact kolom_of_isRect hB hn
  rw [kaliMatriks_eq (by omega) (by omega) (by omega), hlA, hkA, hkB, ofQ_tabel]
  congr 1
  simp only [tabel]
  apply List.map_congr_left
  intro i hi
  apply List.map_congr_left
  intro j hj
  rw [List.mem_range] at hi hj
  rw [foldl_range_num (fun k => sel (ofQ A) i k * sel (ofQ B) k j)
    (fun k => selQ A i k * selQ B k j) n
    (fun k hk => by simp only [sel_ofQ hA hi hk, sel_ofQ hB hk hj, num_mul]) 0]
  simp

theorem determinan_unfold (A : Matriks) (hP : _isPersegi A = .ok true) :
    determinan A =
      (if A.length = 1 then elemen A 0 0
      else if A.length = 2 then do
        let a ← elemen A 0 0
        let d ← elemen A 1 1
        let b ← elemen A 0 1
        let c ← elemen A 1 0
        pure (a * d - b * c)
      else do
        (List.range (← panjangBaris A 0)).foldlM (fun det j => do
          let subMatriks := (A.drop 1).map (fun baris => saring baris j)
          let tanda : Val := if j % 2 = 0 then .num 1 else .num (-1)
          let a ← elemen A 0 j
          let d ← determinan subMatriks
          pure (det + tanda * a * d)) (Val.num 0)) := by
  rw [determinan]
  split
  next e h => rw [hP] at h; cases h
  next h => rw [hP] at h; cases h
  next => rfl

theorem determinan_of_error (A : Matriks) (e : Err) (hP : _isPersegi A = .error e) :
    determinan A = .error e := by
  rw [determinan]
  split
  next e' h => rw [hP] at h; cases h; rfl
  next h => rw [hP] at h; cases h
  next h => rw [hP] at h; cases h

theorem determinan_of_false (A : Matriks) (hP : _isPersegi A = .ok false) :
    determinan A = .error .bukanPersegi := by
  rw [determinan]
  split
  next e' h => rw [hP] at h; cases h
  next => rfl
  next h => rw [hP] at h; cases h

theorem saring_enumFrom {α : Type} (l : List α) (j k : Nat) :
    ((l.enumFrom k).filter (fun p => p.1 != j + k)).map Prod.snd = l.eraseIdx j := by
  induction l generalizing j k with
  | nil => simp
  | cons a t ih =>
    cases j with
    | zero =>
      have hall : (t.enumFrom (k + 1)).filter (fun p => p.1 != 0 + k) = t.enumFrom (k + 1) := by
        rw [List.filter_eq_self]
        intro p hp
        have := List.le_fst_of_mem_enumFrom hp
        simp only [bne_iff_ne, ne_eq]
        omega
      simp only [List.enumFrom_cons, List.eraseIdx_cons_zero]
      rw [List.filter_cons_of_neg (by simp), hall, List.enumFrom_map_snd]
    | succ j =>
      have hfun : (fun p : Nat × α => p.1 != j + 1 + k) = (fun p => p.1 != j + (k + 1)) := by
        funext p
        congr 1
        omega
      simp only [List.enumFrom_cons, List.eraseIdx_cons_succ]
      rw [List.filter_cons_of_pos (by simp), List.map_cons, hfun, ih j (k + 1)]

theorem saring_eq_eraseIdx {α : Type} (l : List α) (j : Nat) : saring l j = l.eraseIdx j := by
  simpa [saring, List.enum] using saring_enumFrom l j 0

theorem ofQ_minorQ (A : List (List ℚ)) (i j : Nat) :
    (saring (ofQ A) i).map (fun baris => saring baris j) = ofQ (minorQ A i j) := by
  simp only [saring_eq_eraseIdx, ofQ, minorQ, List.map_map]
  rw [List.eraseIdx_eq_take_drop_succ, List.eraseIdx_eq_take_drop_succ]
  simp only [List.map_append, List.map_take, List.map_drop, List.map_map]
  congr 2 <;>
  · apply List.map_congr_left
    intro r _
    simp only [Function.comp, saring_eq_eraseIdx]
    rw [List.eraseIdx_eq_take_drop_succ, List.eraseIdx_eq_take_drop_succ]
    simp

theorem ofQ_drop_minorQ (A : List (List ℚ)) (j : Nat) :
    ((ofQ A).drop 1).map (fun baris => saring baris j) = ofQ (minorQ A 0 j) := by
  rw [← ofQ_minorQ, saring_eq_eraseIdx, List.eraseIdx_zero, List.drop_one]

theorem isRect_minorQ {m n : Nat} {A : List (List ℚ)} (hA : IsRect (m + 1) (n + 1) A)
    {i j : Nat} (hi : i < m + 1) (hj : j < n + 1) : IsRect m n (minorQ A i j) := by
  obtain ⟨hl, hr⟩ := hA
  constructor
  · simp only [minorQ, List.length_map]
    rw [List.length_eraseIdx_of_lt (by omega)]
    omega
  · intro baris hb
    simp only [minorQ, List.mem_map] at hb
    obtain ⟨r, hrA, rfl⟩ := hb
    have := hr r (List.eraseIdx_subset _ _ hrA)
    rw [List.length_eraseIdx_of_lt (by omega)]
    omega

theorem selQ_minorQ (A : List (List ℚ)) (i j a b : Nat) :
    selQ (minorQ A i j) a b
      = selQ A (if a < i then a else a + 1) (if b < j then b else b + 1) := by
  simp only [selQ, minorQ, List.getD_eq_getElem?_getD, List.getElem?_map,
    List.getElem?_eraseIdx]
  have key : ∀ o : Option (List ℚ),
      ((Option.map (fun baris => baris.eraseIdx j) o).getD [])[b]?.getD 0
        = (o.getD [])[if b < j then b else b + 1]?.getD 0 := by
    intro o
    cases o with
    | none => simp
    | some r =>
      simp only [Option.map_some', Option.getD_some, List.getElem?_eraseIdx]
      split <;> rfl
  rw [key]
  split <;> rfl

theorem toMatrix_minorQ {n : Nat} (A : List (List ℚ)) (i j : Fin (n + 1)) :
    toMatrix n n (minorQ A i j)
      = (toMatrix (n + 1) (n + 1) A).submatrix i.succAbove j.succAbove := by
  funext a b
  simp only [toMatrix, Matrix.submatrix_apply, selQ_minorQ]
  congr 1
  · simp only [Fin.succAbove, Fin.lt_def, Fin.coe_castSucc]
    split <;> simp
  · simp only [Fin.succAbove, Fin.lt_def, Fin.coe_castSucc]
    split <;> simp

theorem foldlM_range_num (F : Val → Nat → Except Err Val) (f : Nat → ℚ) (n : Nat)
    (h : ∀ k, k < n → ∀ acc, F acc k = .ok (acc + Val.num (f k))) (a : ℚ) :
    (List.range n).foldlM F (Val.num a) = .ok (Val.num (a + ∑ k in Finset.range n, f k)) := by
  rw [foldlM_ok F (fun acc k => acc + Val.num (f k)) _
    (fun k hk acc => h k (List.mem_range.mp hk) acc)]
  rw [foldl_range_num (fun k => Val.num (f k)) f n (fun _ _ => rfl)]

theorem tanda_mul (j : Nat) (a d : ℚ) :
    (if j % 2 = 0 then Val.num 1 else Val.num (-1)) * Val.num a * Val.num d
      = Val.num ((-1) ^ j * a * d) := by
  split
  next h =>
    have : Even j := Nat.even_iff.mpr h
    simp [this.neg_one_pow]
  next h =>
    have : Odd j := Nat.odd_iff.mpr (by omega)
    simp [this.neg_one_pow]

theorem isPersegi_ofQ {n : Nat} {A : List (List ℚ)} (hA : IsRect (n + 1) (n + 1) A) :
    _isPersegi (ofQ A) = .ok true := by
  have hl : (ofQ A).length = n + 1 := by rw [length_ofQ]; exact hA.1
  have hk : kolom (ofQ A) = n + 1 := by rw [kolom_ofQ]; exact kolom_of_isRect hA (by omega)
  simp [_isPersegi, panjangBaris_zero (A := ofQ A) (by omega), hl, hk]

theorem determinan_ofQ (n : Nat) : ∀ A : List (List ℚ), IsRect (n + 1) (n + 1) A →
    determinan (ofQ A) = .ok (Val.num (Matrix.det (toMatrix (n + 1) (n + 1) A))) := by
  induction n with
  | zero =>
    intro A hA
    have hl : (ofQ A).length = 1 := by rw [length_ofQ]; exact hA.1
    rw [determinan_unfold _ (isPersegi_ofQ hA), if_pos hl, elemen_of_lt (by omega),
      sel_ofQ hA (by omega) (by omega)]
    simp [Matrix.det_fin_one, toMatrix]
  | succ n ih =>
    intro A hA
    have hl : (ofQ A).length = n + 2 := by rw [length_ofQ]; exact hA.1
    have hk : kolom (ofQ A) = n + 2 := by rw [kolom_ofQ]; exact kolom_of_isRect hA (by omega)
    rw [determinan_unfold _ (isPersegi_ofQ hA), if_neg (by omega)]
    cases n with
    | zero =>
      rw [if_pos hl]
      simp only [elemen_of_lt (A := ofQ A) (i := 0) (by omega),
        elemen_of_lt (A := ofQ A) (i := 1) (by omega), bind_ok, pure_eq_ok]
      rw [sel_ofQ hA (by omega) (by omega), sel_ofQ hA (by omega) (by omega),
        sel_ofQ hA (by omega) (by omega), sel_ofQ hA (by omega) (by omega)]
      simp [Matrix.det_fin_two, toMatrix]
    | succ k =>
      rw [if_neg (by omega), panjangBaris_zero (by omega), hk]
      simp only [bind_ok]
      rw [foldlM_range_num _
        (fun j => (-1) ^ j * selQ A 0 j * Matrix.det (toMatrix (k + 2) (k + 2) (minorQ A 0 j)))]
      · rw [Matrix.det_succ_row_zero, Finset.sum_range, zero_add]
        congr 2
        apply Finset.sum_congr rfl
        intro j _
        have := toMatrix_minorQ A (0 : Fin (k + 3)) j
        simp only [Fin.val_zero, Fin.succAbove_zero] at this
        rw [this]
        rfl
      · intro j hj acc
        rw [elemen_of_lt (by omega), sel_ofQ hA (by omega) hj, ofQ_drop_minorQ,
          ih _ (isRect_minorQ hA (by omega) hj)]
        simp only [bind_ok, pure_eq_ok]
        rw [tanda_mul]

theorem tabel_congr {α : Type} {m n : Nat} {f g : Nat → Nat → α}
    (h : ∀ i j, i < m → j < n → f i j = g i j) : tabel m n f = tabel m n g := by
  simp only [tabel]
  apply List.map_congr_left
  intro i hi
  apply List.map_congr_left
  intro j hj
  exact h i j (List.mem_range.mp hi) (List.mem_range.mp hj)

theorem transpos_tabel {m : Nat} (hm : 0 < m) (n : Nat) (f : Nat → Nat → Val) :
    transpos (tabel m n f) = .ok (tabel n m fun j i => f i j) := by
  rw [transpos_eq (by rw [length_tabel]; exact hm), kolom_tabel hm, length_tabel]
  congr 1
  exact tabel_congr fun j i hj hi => sel_tabel f hi hj

theorem kaliSkalar_tabel {m : Nat} (hm : 0 < m) (n : Nat) (f : Nat → Nat → Val) (s : Val) :
    kaliSkalar (tabel m n f) s = .ok (tabel m n fun i j => f i j * s) := by
  rw [kaliSkalar_eq, kolom_tabel hm, length_tabel]
  congr 1
  exact tabel_congr fun i j hi hj => by rw [sel_tabel f hi hj]

theorem tanda_mul_one (k : Nat) (d : ℚ) :
    (if k % 2 = 0 then Val.num 1 else Val.num (-1)) * Val.num d = Val.num ((-1) ^ k * d) := by
  have := tanda_mul k 1 d
  simpa using this

/-- The inverse computed by the general path (order at least 3). -/
theorem invers_ofQ_besar {k : Nat} {A : List (List ℚ)} (hA : IsRect (k + 3) (k + 3) A)
    (hd : Matrix.det (toMatrix (k + 3) (k + 3) A) ≠ 0) :
    invers (ofQ A) = .ok (ofQ (tabel (k + 3) (k + 3) fun i j =>
      (-1) ^ (j + i) * Matrix.det (toMatrix (k + 2) (k + 2) (minorQ A j i))
        * (1 / Matrix.det (toMatrix (k + 3) (k + 3) A)))) := by
  have hl : (ofQ A).length = k + 3 := by rw [length_ofQ]; exact hA.1
  unfold invers
  rw [determinan_ofQ _ A hA]
  simp only [bind_ok, Val.num.injEq, hd, if_false, hl]
  rw [if_neg (by omega)]
  have hkof : (List.range (k + 3)).mapM (fun i => (List.range (k + 3)).mapM (fun j => do
        let subMatriks := (saring (ofQ A) i).map (fun baris => saring baris j)
        let tanda : Val := if (i + j) % 2 = 0 then .num 1 else .num (-1)
        let d ← determinan subMatriks
        pure (tanda * d)))
      = .ok (tabel (k + 3) (k + 3) fun i j =>
          Val.num ((-1) ^ (i + j) * Matrix.det (toMatrix (k + 2) (k + 2) (minorQ A i j)))) := by
    apply mapM_ok
    intro i hi
    apply mapM_ok
    intro j hj
    rw [List.mem_range] at hi hj
    simp only []
    rw [ofQ_minorQ, determinan_ofQ _ _ (isRect_minorQ hA hi hj)]
    simp only [bind_ok, pure_eq_ok]
    rw [tanda_mul_one]
  simp only [] at hkof
  rw [hkof]
  simp only [bind_ok]
  rw [transpos_tabel (by omega)]
  simp only [bind_ok]
  rw [kaliSkalar_tabel (by omega), ofQ_tabel, num_div _ hd]
  rfl

theorem invers_ofQ_singular {n : Nat} {A : List (List ℚ)} (hA : IsRect (n + 1) (n + 1) A)
    (hd : Matrix.det (toMatrix (n + 1) (n + 1) A) = 0) :
    invers (ofQ A) = .error .singular := by
  unfold invers
  rw [determinan_ofQ _ A hA, hd]
  simp

theorem determinan_nil : determinan [] = .error .typeError :=
  determinan_of_error [] _ rfl

theorem invers_ofQ_satu {A : List (List ℚ)} (hA : IsRect 1 1 A)
    (hd : Matrix.det (toMatrix 1 1 A) ≠ 0) : invers (ofQ A) = .error .typeError := by
  have hl : (ofQ A).length = 1 := by rw [length_ofQ]; exact hA.1
  have hmin : minorQ A 0 0 = [] := by
    have := (isRect_minorQ (m := 0) (n := 0) hA (i := 0) (j := 0) (by omega) (by omega)).1
    exact List.eq_nil_of_length_eq_zero this
  unfold invers
  rw [determinan_ofQ 0 A hA]
  simp only [bind_ok, Val.num.injEq, hd, if_false, hl]
  rw [if_neg (by omega)]
  have hkof : (List.range 1).mapM (fun i => (List.range 1).mapM (fun j => do
        let subMatriks := (saring (ofQ A) i).map (fun baris => saring baris j)
        let tanda : Val := if (i + j) % 2 = 0 then .num 1 else .num (-1)
        let d ← determinan subMatriks
        pure (tanda * d)))
      = .error .typeError := by
    have h1 : List.range 1 = [0] := rfl
    rw [h1, List.mapM_cons, List.mapM_cons]
    simp only []
    rw [ofQ_minorQ, hmin]
    have : ofQ [] = [] := rfl
    rw [this, determinan_nil]
    rfl
  simp only [] at hkof
  rw [hkof]
  rfl

theorem invers_ofQ_dua {A : List (List ℚ)} (hA : IsRect 2 2 A)
    (hd : Matrix.det (toMatrix 2 2 A) ≠ 0) :
    invers (ofQ A) = .ok (ofQ
      [[selQ A 1 1 * (1 / Matrix.det (toMatrix 2 2 A)),
        -selQ A 0 1 * (1 / Matrix.det (toMatrix 2 2 A))],
       [-selQ A 1 0 * (1 / Matrix.det (toMatrix 2 2 A)),
        selQ A 0 0 * (1 / Matrix.det (toMatrix 2 2 A))]]) := by
  have hl : (ofQ A).length = 2 := by rw [length_ofQ]; exact hA.1
  unfold invers
  rw [determinan_ofQ 1 A hA]
  simp only [bind_ok, Val.num.injEq, hd, if_false, hl, if_true,
    elemen_of_lt (A := ofQ A) (i := 0) (by omega),
    elemen_of_lt (A := ofQ A) (i := 1) (by omega)]
  rw [sel_ofQ hA (by omega) (by omega), sel_ofQ hA (by omega) (by omega),
    sel_ofQ hA (by omega) (by omega), sel_ofQ hA (by omega) (by omega), kaliSkalar_eq,
    num_div _ hd]
  simp [tabel, kolom, sel, ofQ, List.range_succ]

theorem invers_ofQ_inv (n : Nat) {A : List (List ℚ)} (hA : IsRect (n + 2) (n + 2) A)
    (hd : Matrix.det (toMatrix (n + 2) (n + 2) A) ≠ 0) :
    ∃ C : List (List ℚ), invers (ofQ A) = .ok (ofQ C) ∧ IsRect (n + 2) (n + 2) C ∧
      toMatrix (n + 2) (n + 2) C = (toMatrix (n + 2) (n + 2) A)⁻¹ := by
  cases n with
  | zero =>
    refine ⟨_, invers_ofQ_dua hA hd, by simp [IsRect], ?_⟩
    funext i j
    rw [Matrix.inv_def, Ring.inverse_eq_inv', Matrix.adjugate_fin_two]
    fin_cases i <;> fin_cases j <;>
    · simp [toMatrix, selQ]
      ring
  | succ k =>
    refine ⟨_, invers_ofQ_besar hA hd, isRect_tabel _ _ _, ?_⟩
    funext i j
    rw [Matrix.inv_def, Ring.inverse_eq_inv', Matrix.smul_apply,
      Matrix.adjugate_fin_succ_eq_det_submatrix, ← toMatrix_minorQ]
    simp only [toMatrix, selQ_tabel _ i.isLt j.isLt, smul_eq_mul]
    ring

theorem sum_range_eq_mul {m n p : Nat} (A B : List (List ℚ)) (i : Fin m) (j : Fin p) :
    ∑ k in Finset.range n, selQ A i k * selQ B k j
      = (toMatrix m n A * toMatrix n p B) i j := by
  rw [Matrix.mul_apply, Finset.sum_range]
  rfl

theorem kaliMatriks_invers (n : Nat) {A : List (List ℚ)} (hA : IsRect (n + 2) (n + 2) A)
    (hd : Matrix.det (toMatrix (n + 2) (n + 2) A) ≠ 0) :
    (invers (ofQ A) >>= fun B => kaliMatriks (ofQ A) B) = .ok (ofQ (identitas (n + 2))) := by
  obtain ⟨C, hC, hrect, hinv⟩ := invers_ofQ_inv n hA hd
  rw [hC, bind_ok, kaliMatriks_ofQ (by omega) (by omega) hA hrect]
  congr 2
  apply tabel_congr
  intro i j hi hj
  rw [sum_range_eq_mul A C ⟨i, hi⟩ ⟨j, hj⟩, hinv,
    Matrix.mul_nonsing_inv _ (isUnit_iff_ne_zero.mpr hd), Matrix.one_apply]
  simp [Fin.ext_iff]

/-! ## Determinant and inverse: claims C1 to C6 -/

theorem det_contoh :
    Matrix.det (toMatrix 3 3 [[1, 0, 2], [-1, 3, 1], [2, 2, 1]]) = -15 := by
  rw [Matrix.det_fin_three]
  simp [toMatrix, selQ]
  norm_num

/-- C1: for every `n >= 1` and every rectangular `n`-by-`n` matrix `A` of exact numbers,
`determinan(A)` returns the mathematical determinant of `A` (`Matrix.det`); in particular
`determinan([[1,0,2],[-1,3,1],[2,2,1]]) = -15`. -/
theorem determinan_eq_det (n : Nat) (A : List (List ℚ)) (hn : 1 ≤ n) (hA : IsRect n n A) :
    determinan (ofQ A) = .ok (Val.num (Matrix.det (toMatrix n n A))) ∧
    determinan (ofQ [[1, 0, 2], [-1, 3, 1], [2, 2, 1]]) = .ok (Val.num (-15)) := by
  constructor
  · obtain ⟨k, rfl⟩ : ∃ k, n = k + 1 := ⟨n - 1, by omega⟩
    exact determinan_ofQ k A hA
  · rw [determinan_ofQ 2 _ (by decide), det_contoh]

/-- Witness for C1 at the 3-by-3 matrix `[[2,0,1],[1,3,2],[1,1,1]]`. -/
theorem determinan_eq_det_witness :
    determinan (ofQ [[2, 0, 1], [1, 3, 2], [1, 1, 1]])
      = .ok (Val.num (Matrix.det (toMatrix 3 3 [[2, 0, 1], [1, 3, 2], [1, 1, 1]]))) ∧
    determinan (ofQ [[1, 0, 2], [-1, 3, 1], [2, 2, 1]]) = .ok (Val.num (-15)) :=
  determinan_eq_det 3 [[2, 0, 1], [1, 3, 2], [1, 1, 1]] (by decide) (by decide)

/-- C2 fails on the code at order 1: the matrix `[[5]]` has determinant `5`, which is not
zero, yet `invers([[5]])` raises a `TypeError`, so `kaliMatriks(A, invers(A))` yields no
identity matrix. -/
theorem kaliMatriks_invers_satu :
    determinan (ofQ [[5]]) = .ok (Val.num 5) ∧
    (invers (ofQ [[5]]) >>= fun B => kaliMatriks (ofQ [[5]]) B) = .error Err.typeError := by
  have hd : Matrix.det (toMatrix 1 1 [[5]]) = 5 := by simp [Matrix.det_fin_one, toMatrix, selQ]
  refine ⟨by rw [determinan_ofQ 0 _ (by decide), hd], ?_⟩
  rw [invers_ofQ_satu (by decide) (by rw [hd]; norm_num)]
  rfl

/-- C3 fails on the code at order 1: the matrix `[[5]]` is square with determinant `5`, and
`invers([[5]])` does not return a matrix but raises a `TypeError`, because the cofactor loop
calls `determinan` on the empty minor. -/
theorem invers_satu_typeError :
    IsRect 1 1 ([[5]] : List (List ℚ)) ∧ determinan (ofQ [[5]]) = .ok (Val.num 5) ∧
    determinan (minor (ofQ [[5]]) 0 0) = .error Err.typeError ∧
    invers (ofQ [[5]]) = .error Err.typeError := by
  have hd : Matrix.det (toMatrix 1 1 [[5]]) = 5 := by simp [Matrix.det_fin_one, toMatrix, selQ]
  refine ⟨by decide, by rw [determinan_ofQ 0 _ (by decide), hd], ?_,
    invers_ofQ_satu (by decide) (by rw [hd]; norm_num)⟩
  have : minor (ofQ [[5]]) 0 0 = [] := by
    simp [minor, saring_eq_eraseIdx, ofQ]
  rw [this, determinan_nil]

/-- C4: for every rectangular square matrix `A` of exact numbers (order `n >= 1`),
`invers(A)` fails with the Singular error, whose message is
"Matriks singular, tidak memiliki invers.", if and only if `determinan(A)` is exactly `0`;
in particular it fails with Singular for `A = [[1,2],[2,4]]`. -/
theorem invers_singular_iff (n : Nat) (A : List (List ℚ)) (hn : 1 ≤ n) (hA : IsRect n n A) :
    ((∃ e, invers (ofQ A) = .error e ∧ e.kind = some ErrorKind.Singular)
      ↔ determinan (ofQ A) = .ok (Val.num 0)) ∧
    invers (ofQ [[1, 2], [2, 4]]) = .error Err.singular ∧
    Err.singular.pesan = "Matriks singular, tidak memiliki invers." := by
  obtain ⟨k, rfl⟩ : ∃ k, n = k + 1 := ⟨n - 1, by omega⟩
  refine ⟨⟨?_, ?_⟩, ?_, rfl⟩
  · rintro ⟨e, he, hkind⟩
    rw [determinan_ofQ k A hA]
    by_contra hne
    have hd : Matrix.det (toMatrix (k + 1) (k + 1) A) ≠ 0 := by
      intro h0
      exact hne (by rw [h0])
    cases k with
    | zero =>
      rw [invers_ofQ_satu hA hd] at he
      cases he
      simp [Err.kind] at hkind
    | succ k =>
      obtain ⟨C, hC, -⟩ := invers_ofQ_inv k hA hd
      rw [hC] at he
      cases he
  · intro h
    rw [determinan_ofQ k A hA] at h
    have hd : Matrix.det (toMatrix (k + 1) (k + 1) A) = 0 := by
      simpa using h
    exact ⟨_, invers_ofQ_singular hA hd, rfl⟩
  · apply invers_ofQ_singular (n := 1) (by decide)
    rw [Matrix.det_fin_two]
    simp [toMatrix, selQ]
    norm_num

/-- Witness for C4 at the singular 3-by-3 matrix `[[1,2,3],[2,4,6],[0,1,1]]`. -/
theorem invers_singular_iff_witness :
    ((∃ e, invers (ofQ [[1, 2, 3], [2, 4, 6], [0, 1, 1]]) = .error e ∧
        e.kind = some ErrorKind.Singular)
      ↔ determinan (ofQ [[1, 2, 3], [2, 4, 6], [0, 1, 1]]) = .ok (Val.num 0)) ∧
    invers (ofQ [[1, 2], [2, 4]]) = .error Err.singular ∧
    Err.singular.pesan = "Matriks singular, tidak memiliki invers." :=
  invers_singular_iff 3 [[1, 2, 3], [2, 4, 6], [0, 1, 1]] (by decide) (by decide)

/-- C5: for every `n > 2` and every rectangular `n`-by-`n` matrix `A` of exact numbers with
`det = determinan(A) != 0`, `invers(A)` is the `n`-by-`n` matrix whose entry `(i, j)` is
`(1/det) * sign(j,i) * determinan(minor(A, j, i))`, where `sign(r,c)` is `+1` when `r + c` is
even and `-1` otherwise and `minor(A, r, c)` removes row `r` and column `c`. -/
theorem invers_entries (n : Nat) (A : List (List ℚ)) (d : ℚ) (hn : 2 < n) (hA : IsRect n n A)
    (hdet : determinan (ofQ A) = .ok (Val.num d)) (hd : d ≠ 0) :
    ∃ C : List (List ℚ), invers (ofQ A) = .ok (ofQ C) ∧ IsRect n n C ∧
      ∀ i j, i < n → j < n → ∃ mji : ℚ,
        determinan (minor (ofQ A) j i) = .ok (Val.num mji) ∧
        selQ C i j = (1 / d) * (if (j + i) % 2 = 0 then 1 else -1) * mji := by
  obtain ⟨k, rfl⟩ : ∃ k, n = k + 3 := ⟨n - 3, by omega⟩
  have hval : Matrix.det (toMatrix (k + 3) (k + 3) A) = d := by
    rw [determinan_ofQ _ A hA] at hdet
    simpa using hdet
  refine ⟨_, invers_ofQ_besar hA (by rw [hval]; exact hd), isRect_tabel _ _ _, ?_⟩
  intro i j hi hj
  refine ⟨Matrix.det (toMatrix (k + 2) (k + 2) (minorQ A j i)), ?_, ?_⟩
  · rw [minor, ofQ_minorQ, determinan_ofQ _ _ (isRect_minorQ hA hj hi)]
  · rw [selQ_tabel _ hi hj, hval]
    have hs : ((-1 : ℚ) ^ (j + i)) = if (j + i) % 2 = 0 then 1 else -1 := by
      split
      next h => exact (Nat.even_iff.mpr h).neg_one_pow
      next h => exact (Nat.odd_iff.mpr (by omega)).neg_one_pow
    rw [hs]
    ring

/-- Witness for C5 at the 3-by-3 matrix `[[1,0,2],[-1,3,1],[2,2,1]]`, whose determinant
is `-15`. -/
theorem invers_entries_witness :
    ∃ C : List (List ℚ),
      invers (ofQ [[1, 0, 2], [-1, 3, 1], [2, 2, 1]]) = .ok (ofQ C) ∧ IsRect 3 3 C ∧
      ∀ i j, i < 3 → j < 3 → ∃ mji : ℚ,
        determinan (minor (ofQ [[1, 0, 2], [-1, 3, 1], [2, 2, 1]]) j i) = .ok (Val.num mji) ∧
        selQ C i j = (1 / (-15)) * (if (j + i) % 2 = 0 then 1 else -1) * mji :=
  invers_entries 3 [[1, 0, 2], [-1, 3, 1], [2, 2, 1]] (-15) (by decide) (by decide)
    (by rw [determinan_ofQ 2 _ (by decide), det_contoh]) (by norm_num)

/-- C6: for every 2-by-2 matrix `A = [[a,b],[c,d]]` of exact numbers with
`det = a*d - b*c != 0`, `invers(A)` equals
`[[d*(1/det), -b*(1/det)], [-c*(1/det), a*(1/det)]]`; in particular
`invers([[1,2],[3,4]]) = [[-2,1],[1.5,-0.5]]`. -/
theorem invers_dua (a b c d : ℚ) (hdet : a * d - b * c ≠ 0) :
    invers (ofQ [[a, b], [c, d]])
      = .ok (ofQ [[d * (1 / (a * d - b * c)), -b * (1 / (a * d - b * c))],
                  [-c * (1 / (a * d - b * c)), a * (1 / (a * d - b * c))]]) ∧
    invers (ofQ [[1, 2], [3, 4]]) = .ok (ofQ [[-2, 1], [3 / 2, -1 / 2]]) := by
  have key : ∀ a b c d : ℚ, a * d - b * c ≠ 0 →
      invers (ofQ [[a, b], [c, d]])
        = .ok (ofQ [[d * (1 / (a * d - b * c)), -b * (1 / (a * d - b * c))],
                    [-c * (1 / (a * d - b * c)), a * (1 / (a * d - b * c))]]) := by
    intro a b c d h
    have hval : Matrix.det (toMatrix 2 2 [[a, b], [c, d]]) = a * d - b * c := by
      rw [Matrix.det_fin_two]
      simp [toMatrix, selQ]
    have hrect : IsRect 2 2 [[a, b], [c, d]] := by simp [IsRect]
    rw [invers_ofQ_dua hrect (by rw [hval]; exact h), hval]
    simp [selQ]
  refine ⟨key a b c d hdet, ?_⟩
  rw [key 1 2 3 4 (by norm_num)]
  norm_num

/-- Witness for C6 at `A = [[2,1],[1,1]]`, whose determinant is `1`. -/
theorem invers_dua_witness :
    invers (ofQ [[2, 1], [1, 1]])
      = .ok (ofQ [[1 * (1 / (2 * 1 - 1 * 1)), -1 * (1 / (2 * 1 - 1 * 1))],
                  [-1 * (1 / (2 * 1 - 1 * 1)), 2 * (1 / (2 * 1 - 1 * 1))]]) ∧
    invers (ofQ [[1, 2], [3, 4]]) = .ok (ofQ [[-2, 1], [3 / 2, -1 / 2]]) :=
  invers_dua 2 1 1 1 (by norm_num)

/-! ## Matrix product and sum: claims C7 to C10 -/

/-- C7: for a rectangular `m`-by-`n` matrix `A` and a rectangular `n`-by-`p` matrix `B` of exact
numbers (`m, n >= 1`), `kaliMatriks(A, B)` returns a rectangular `m`-by-`p` matrix whose entry
`(i, j)` is the sum over `k = 0 .. n-1` of `A[i][k] * B[k][j]`; in particular
`kaliMatriks([[1,2],[3,4]], [[5,6],[7,8]]) = [[19,22],[43,50]]`. -/
theorem kaliMatriks_entries (m n p : Nat) (A B : List (List ℚ)) (hm : 1 ≤ m) (hn : 1 ≤ n)
    (hA : IsRect m n A) (hB : IsRect n p B) :
    (∃ C : List (List ℚ), kaliMatriks (ofQ A) (ofQ B) = .ok (ofQ C) ∧ IsRect m p C ∧
      ∀ i j, i < m → j < p → selQ C i j = ∑ k in Finset.range n, selQ A i k * selQ B k j) ∧
    kaliMatriks (ofQ [[1, 2], [3, 4]]) (ofQ [[5, 6], [7, 8]])
      = .ok (ofQ [[19, 22], [43, 50]]) := by
  refine ⟨⟨_, kaliMatriks_ofQ hm hn hA hB, isRect_tabel _ _ _, ?_⟩, ?_⟩
  · intro i j hi hj
    rw [selQ_tabel _ hi hj]
  · rw [kaliMatriks_ofQ (m := 2) (n := 2) (p := 2) (by decide) (by decide) (by decide)
      (by decide)]
    simp [tabel, selQ, List.range_succ, Finset.sum_range_succ]
    norm_num

/-- Witness for C7 at `A = [[1,2,3],[4,5,6]]` and `B = [[1],[0],[2]]`. -/
theorem kaliMatriks_entries_witness :
    (∃ C : List (List ℚ),
      kaliMatriks (ofQ [[1, 2, 3], [4, 5, 6]]) (ofQ [[1], [0], [2]]) = .ok (ofQ C) ∧
      IsRect 2 1 C ∧
      ∀ i j, i < 2 → j < 1 → selQ C i j
        = ∑ k in Finset.range 3, selQ [[1, 2, 3], [4, 5, 6]] i k * selQ [[1], [0], [2]] k j) ∧
    kaliMatriks (ofQ [[1, 2], [3, 4]]) (ofQ [[5, 6], [7, 8]])
      = .ok (ofQ [[19, 22], [43, 50]]) :=
  kaliMatriks_entries 2 3 1 [[1, 2, 3], [4, 5, 6]] [[1], [0], [2]] (by decide) (by decide)
    (by decide) (by decide)

/-- C8: for rectangular matrices `A` (`m`-by-`n`, `m >= 1`) and `B` (`r`-by-`p`),
`kaliMatriks(A, B)` fails with a ShapeMismatch error exactly when the column count of `A`
differs from the row count of `B`, and in that case it returns no matrix. -/
theorem kaliMatriks_fails_iff (m n r p : Nat) (A B : Matriks) (hm : 1 ≤ m)
    (hA : IsRect m n A) (hB : IsRect r p B) :
    ((∃ e, kaliMatriks A B = .error e ∧ e.kind = some ErrorKind.ShapeMismatch) ↔ n ≠ r) ∧
    (n ≠ r → kaliMatriks A B = .error Err.kolomBaris ∧ ∀ C, kaliMatriks A B ≠ .ok C) := by
  have hposA : 0 < A.length := by rw [hA.1]; omega
  have hkA : kolom A = n := kolom_of_isRect hA hm
  have hfail : n ≠ r → kaliMatriks A B = .error Err.kolomBaris := by
    intro hne
    exact kaliMatriks_err hposA (by rw [hkA, hB.1]; exact hne)
  refine ⟨⟨?_, fun hne => ⟨_, hfail hne, rfl⟩⟩, fun hne => ⟨hfail hne, ?_⟩⟩
  · rintro ⟨e, he, hkind⟩
    intro hnr
    by_cases hr : 0 < r
    · rw [kaliMatriks_eq hposA (by rw [hB.1]; exact hr) (by rw [hkA, hB.1]; exact hnr)] at he
      cases he
    · have hB0 : B = [] := List.eq_nil_of_length_eq_zero (by rw [hB.1]; omega)
      have : kaliMatriks A B = .error Err.typeError := by
        subst hB0
        have hk0 : kolom A = 0 := by omega
        simp [kaliMatriks, panjangBaris_zero hposA, hk0, panjangBaris_nil]
      rw [this] at he
      cases he
      simp [Err.kind] at hkind
  · intro C hC
    rw [hfail hne] at hC
    cases hC

/-- Witness for C8 at `A = [[1,2]]` (1-by-2) and `B = [[3,4,5]]` (1-by-3). -/
theorem kaliMatriks_fails_iff_witness :
    ((∃ e, kaliMatriks [[.num 1, .num 2]] [[.num 3, .num 4, .num 5]] = .error e ∧
        e.kind = some ErrorKind.ShapeMismatch) ↔ 2 ≠ 1) ∧
    (2 ≠ 1 → kaliMatriks [[.num 1, .num 2]] [[.num 3, .num 4, .num 5]]
        = .error Err.kolomBaris ∧
      ∀ C, kaliMatriks [[.num 1, .num 2]] [[.num 3, .num 4, .num 5]] ≠ .ok C) :=
  kaliMatriks_fails_iff 1 2 1 3 [[.num 1, .num 2]] [[.num 3, .num 4, .num 5]] (by decide)
    (by decide) (by decide)

/-- C9: for rectangular matrices `A` and `B` of exact numbers with identical dimensions
`m`-by-`n`, `tambah(A, B)` returns a rectangular `m`-by-`n` matrix whose entry `(i, j)` is
`A[i][j] + B[i][j]`; in particular `tambah([[1,2],[3,4]], [[5,6],[7,8]]) = [[6,8],[10,12]]`. -/
theorem tambah_entries (m n : Nat) (A B : List (List ℚ)) (hm : 1 ≤ m)
    (hA : IsRect m n A) (hB : IsRect m n B) :
    (∃ C : List (List ℚ), tambah (ofQ A) (ofQ B) = .ok (ofQ C) ∧ IsRect m n C ∧
      ∀ i j, i < m → j < n → selQ C i j = selQ A i j + selQ B i j) ∧
    tambah (ofQ [[1, 2], [3, 4]]) (ofQ [[5, 6], [7, 8]]) = .ok (ofQ [[6, 8], [10, 12]]) := by
  refine ⟨⟨_, tambah_ofQ hm hA hB, isRect_tabel _ _ _, ?_⟩, ?_⟩
  · intro i j hi hj
    rw [selQ_tabel _ hi hj]
  · rw [tambah_ofQ (m := 2) (n := 2) (by decide) (by decide) (by decide)]
    simp [tabel, selQ, List.range_succ]
    norm_num

/-- Witness for C9 at `A = [[1,2,3],[4,5,6]]` and `B = [[0,1,0],[7,7,7]]`. -/
theorem tambah_entries_witness :
    (∃ C : List (List ℚ),
      tambah (ofQ [[1, 2, 3], [4, 5, 6]]) (ofQ [[0, 1, 0], [7, 7, 7]]) = .ok (ofQ C) ∧
      IsRect 2 3 C ∧
      ∀ i j, i < 2 → j < 3 → selQ C i j
        = selQ [[1, 2, 3], [4, 5, 6]] i j + selQ [[0, 1, 0], [7, 7, 7]] i j) ∧
    tambah (ofQ [[1, 2], [3, 4]]) (ofQ [[5, 6], [7, 8]]) = .ok (ofQ [[6, 8], [10, 12]]) :=
  tambah_entries 2 3 [[1, 2, 3], [4, 5, 6]] [[0, 1, 0], [7, 7, 7]] (by decide) (by decide)
    (by decide)

/-- C10: for rectangular matrices `A` (`m`-by-`n`, `m >= 1`) and `B` (`r`-by-`p`),
`tambah(A, B)` fails with a ShapeMismatch error exactly when the row counts differ or the
column counts differ; in particular it fails for `A = [[1,2]]` and `B = [[1],[2]]`. -/
theorem tambah_fails_iff (m n r p : Nat) (A B : Matriks) (hm : 1 ≤ m)
    (hA : IsRect m n A) (hB : IsRect r p B) :
    ((∃ e, tambah A B = .error e ∧ e.kind = some ErrorKind.ShapeMismatch) ↔ (m ≠ r ∨ n ≠ p)) ∧
    tambah (ofQ [[1, 2]]) (ofQ [[1], [2]]) = .error Err.ordoBeda := by
  have hposA : 0 < A.length := by rw [hA.1]; omega
  have hkA : kolom A = n := kolom_of_isRect hA hm
  refine ⟨⟨?_, ?_⟩, tambah_err_baris (by decide)⟩
  · rintro ⟨e, he, -⟩
    by_contra hcon
    have hmr : m = r := by omega
    have hnp : n = p := by omega
    have hkB : kolom B = p := kolom_of_isRect hB (by omega)
    rw [tambah_eq (by rw [hA.1, hB.1, hmr]) hposA (by rw [hkA, hkB, hnp])] at he
    cases he
  · intro h
    by_cases hmr : m = r
    · have hnp : n ≠ p := by
        rcases h with h | h
        · exact absurd hmr h
        · exact h
      have hkB : kolom B = p := kolom_of_isRect hB (by omega)
      exact ⟨_, tambah_err_kolom (by rw [hA.1, hB.1, hmr]) hposA (by rw [hkA, hkB]; exact hnp),
        rfl⟩
    · exact ⟨_, tambah_err_baris (by rw [hA.1, hB.1]; exact hmr), rfl⟩

/-- Witness for C10 at `A = [[1,2],[3,4]]` (2-by-2) and `B = [[1,2,3],[4,5,6]]` (2-by-3). -/
theorem tambah_fails_iff_witness :
    ((∃ e, tambah [[.num 1, .num 2], [.num 3, .num 4]]
          [[.num 1, .num 2, .num 3], [.num 4, .num 5, .num 6]] = .error e ∧
        e.kind = some ErrorKind.ShapeMismatch) ↔ (2 ≠ 2 ∨ 2 ≠ 3)) ∧
    tambah (ofQ [[1, 2]]) (ofQ [[1], [2]]) = .error Err.ordoBeda :=
  tambah_fails_iff 2 2 2 3 [[.num 1, .num 2], [.num 3, .num 4]]
    [[.num 1, .num 2, .num 3], [.num 4, .num 5, .num 6]] (by decide) (by decide) (by decide)

/-! ## Transpose, products with the identity and associativity: claims C11 to C15 -/

theorem tabel_getD {α : Type} (d : α) {m n : Nat} {A : List (List α)} (hA : IsRect m n A) :
    tabel m n (fun i j => (A.getD i []).getD j d) = A := by
  obtain ⟨hl, hr⟩ := hA
  apply List.ext_getElem
  · rw [length_tabel, hl]
  · intro i h1 h2
    have hrow : (A[i]).length = n := hr _ (List.getElem_mem _)
    simp only [tabel, List.getElem_map, List.getElem_range]
    apply List.ext_getElem
    · simp [hrow]
    · intro j h3 h4
      simp [List.getD_eq_getElem?_getD, List.getElem?_eq_getElem h2, List.getElem?_eq_getElem h4]

theorem tabel_sel {m n : Nat} {A : Matriks} (hA : IsRect m n A) :
    tabel m n (fun i j => sel A i j) = A :=
  tabel_getD Val.undefined hA

theorem tabel_selQ {m n : Nat} {A : List (List ℚ)} (hA : IsRect m n A) :
    tabel m n (fun i j => selQ A i j) = A :=
  tabel_getD (0 : ℚ) hA

theorem transpos_of_isRect {m n : Nat} {A : Matriks} (hm : 1 ≤ m) (hA : IsRect m n A) :
    transpos A = .ok (tabel n m fun j i => sel A i j) := by
  rw [transpos_eq (by rw [hA.1]; omega), kolom_of_isRect hA (by omega), hA.1]

theorem transpos_transpos {m n : Nat} {A : Matriks} (hm : 1 ≤ m) (hn : 1 ≤ n)
    (hA : IsRect m n A) : (transpos A >>= fun T => transpos T) = .ok A := by
  rw [transpos_of_isRect hm hA, bind_ok, transpos_tabel (by omega)]
  congr 1
  exact tabel_sel hA


/-- C11: for every rectangular matrix `A` with at least one row and at least one column,
`transpos(transpos(A))` equals `A`. -/
theorem transpos_involutif (m n : Nat) (A : Matriks) (hm : 1 ≤ m) (hn : 1 ≤ n)
    (hA : IsRect m n A) : (transpos A >>= fun T => transpos T) = .ok A :=
  transpos_transpos hm hn hA

/-- Witness for C11 at the 2-by-3 matrix `[[1,2,3],[4,5,6]]`. -/
theorem transpos_involutif_witness :
    (transpos (ofQ [[1, 2, 3], [4, 5, 6]]) >>= fun T => transpos T)
      = .ok (ofQ [[1, 2, 3], [4, 5, 6]]) :=
  transpos_involutif 2 3 (ofQ [[1, 2, 3], [4, 5, 6]]) (by decide) (by decide) (by decide)

/-- C12: for every rectangular `m`-by-`n` matrix `A` (`m >= 1`), `transpos(A)` returns a
rectangular `n`-by-`m` matrix whose entry `(j, i)` equals `A[i][j]` for all `i < m`, `j < n`. -/
theorem transpos_entries (m n : Nat) (A : Matriks) (hm : 1 ≤ m) (hA : IsRect m n A) :
    ∃ T : Matriks, transpos A = .ok T ∧ IsRect n m T ∧
      ∀ i j, i < m → j < n → sel T j i = sel A i j := by
  refine ⟨_, transpos_of_isRect hm hA, isRect_tabel _ _ _, ?_⟩
  intro i j hi hj
  rw [sel_tabel _ hj hi]

/-- Witness for C12 at the 2-by-3 matrix `[[1,2,3],[4,5,6]]`. -/
theorem transpos_entries_witness :
    ∃ T : Matriks, transpos (ofQ [[1, 2, 3], [4, 5, 6]]) = .ok T ∧ IsRect 3 2 T ∧
      ∀ i j, i < 2 → j < 3 → sel T j i = sel (ofQ [[1, 2, 3], [4, 5, 6]]) i j :=
  transpos_entries 2 3 (ofQ [[1, 2, 3], [4, 5, 6]]) (by decide) (by decide)

theorem toMatrix_kali (m n p : Nat) (A B : List (List ℚ)) :
    toMatrix m p (tabel m p fun i j => ∑ k in Finset.range n, selQ A i k * selQ B k j)
      = toMatrix m n A * toMatrix n p B := by
  funext i j
  simp only [toMatrix, selQ_tabel _ i.isLt j.isLt]
  exact sum_range_eq_mul A B i j

theorem toMatrix_identitas (n : Nat) : toMatrix n n (identitas n) = 1 := by
  funext i j
  simp only [toMatrix, identitas, selQ_tabel _ i.isLt j.isLt, Matrix.one_apply, Fin.ext_iff]

theorem isRect_identitas (n : Nat) : IsRect n n (identitas n) := isRect_tabel _ _ _

theorem kaliMatriks_assoc_ofQ {m n p q : Nat} {A B C : List (List ℚ)} (hm : 1 ≤ m)
    (hn : 1 ≤ n) (hp : 1 ≤ p) (hA : IsRect m n A) (hB : IsRect n p B) (hC : IsRect p q C) :
    ∃ D : List (List ℚ), IsRect m q D ∧
      (kaliMatriks (ofQ A) (ofQ B) >>= fun AB => kaliMatriks AB (ofQ C)) = .ok (ofQ D) ∧
      (kaliMatriks (ofQ B) (ofQ C) >>= fun BC => kaliMatriks (ofQ A) BC) = .ok (ofQ D) := by
  refine ⟨tabel m q fun i j => ∑ k in Finset.range p,
      selQ (tabel m p fun i j => ∑ k in Finset.range n, selQ A i k * selQ B k j) i k
        * selQ C k j, isRect_tabel m q _, ?_, ?_⟩
  · rw [kaliMatriks_ofQ hm hn hA hB, bind_ok,
      kaliMatriks_ofQ hm hp (isRect_tabel _ _ _) hC]
  · rw [kaliMatriks_ofQ hn hp hB hC, bind_ok,
      kaliMatriks_ofQ hm hn hA (isRect_tabel _ _ _)]
    congr 2
    apply tabel_congr
    intro i j hi hj
    rw [sum_range_eq_mul _ _ ⟨i, hi⟩ ⟨j, hj⟩, sum_range_eq_mul _ _ ⟨i, hi⟩ ⟨j, hj⟩,
      toMatrix_kali, toMatrix_kali, Matrix.mul_assoc]

/-- C13: for all rectangular matrices `A` (`m`-by-`n`), `B` (`n`-by-`p`) and `C` (`p`-by-`q`)
of exact numbers, `kaliMatriks(kaliMatriks(A, B), C)` equals
`kaliMatriks(A, kaliMatriks(B, C))`, and both are a rectangular `m`-by-`q` matrix. -/
theorem kaliMatriks_assoc (m n p q : Nat) (A B C : List (List ℚ)) (hm : 1 ≤ m) (hn : 1 ≤ n)
    (hp : 1 ≤ p) (hA : IsRect m n A) (hB : IsRect n p B) (hC : IsRect p q C) :
    (kaliMatriks (ofQ A) (ofQ B) >>= fun AB => kaliMatriks AB (ofQ C))
      = (kaliMatriks (ofQ B) (ofQ C) >>= fun BC => kaliMatriks (ofQ A) BC) ∧
    ∃ D : List (List ℚ), IsRect m q D ∧
      (kaliMatriks (ofQ A) (ofQ B) >>= fun AB => kaliMatriks AB (ofQ C)) = .ok (ofQ D) := by
  obtain ⟨D, hD, h1, h2⟩ := kaliMatriks_assoc_ofQ hm hn hp hA hB hC
  exact ⟨by rw [h1, h2], D, hD, h1⟩

/-- Witness for C13 at `A = [[1,2]]`, `B = [[1,0,2],[3,1,0]]`, `C = [[1],[2],[3]]`. -/
theorem kaliMatriks_assoc_witness :
    (kaliMatriks (ofQ [[1, 2]]) (ofQ [[1, 0, 2], [3, 1, 0]]) >>= fun AB =>
        kaliMatriks AB (ofQ [[1], [2], [3]]))
      = (kaliMatriks (ofQ [[1, 0, 2], [3, 1, 0]]) (ofQ [[1], [2], [3]]) >>= fun BC =>
        kaliMatriks (ofQ [[1, 2]]) BC) ∧
    ∃ D : List (List ℚ), IsRect 1 1 D ∧
      (kaliMatriks (ofQ [[1, 2]]) (ofQ [[1, 0, 2], [3, 1, 0]]) >>= fun AB =>
        kaliMatriks AB (ofQ [[1], [2], [3]])) = .ok (ofQ D) :=
  kaliMatriks_assoc 1 2 3 1 [[1, 2]] [[1, 0, 2], [3, 1, 0]] [[1], [2], [3]] (by decide)
    (by decide) (by decide) (by decide) (by decide) (by decide)

/-- C14: for every rectangular `m`-by-`n` matrix `A` of exact numbers (`m, n >= 1`),
`kaliMatriks(A, I_n)` equals `A`, where `I_n` is the `n`-by-`n` identity matrix. -/
theorem kaliMatriks_identitas (m n : Nat) (A : List (List ℚ)) (hm : 1 ≤ m) (hn : 1 ≤ n)
    (hA : IsRect m n A) : kaliMatriks (ofQ A) (ofQ (identitas n)) = .ok (ofQ A) := by
  rw [kaliMatriks_ofQ hm hn hA (isRect_identitas n)]
  congr 2
  refine Eq.trans (tabel_congr ?_) (tabel_selQ hA)
  intro i j hi hj
  rw [sum_range_eq_mul A (identitas n) ⟨i, hi⟩ ⟨j, hj⟩, toMatrix_identitas, Matrix.mul_one]
  rfl

/-- Witness for C14 at the 2-by-3 matrix `[[1,2,3],[4,5,6]]`. -/
theorem kaliMatriks_identitas_witness :
    kaliMatriks (ofQ [[1, 2, 3], [4, 5, 6]]) (ofQ (identitas 3))
      = .ok (ofQ [[1, 2, 3], [4, 5, 6]]) :=
  kaliMatriks_identitas 2 3 [[1, 2, 3], [4, 5, 6]] (by decide) (by decide) (by decide)

/-- C15: for every `n >= 1`, `determinan` applied to the `n`-by-`n` identity matrix
returns `1`. -/
theorem determinan_identitas (n : Nat) (hn : 1 ≤ n) :
    determinan (ofQ (identitas n)) = .ok (Val.num 1) := by
  obtain ⟨k, rfl⟩ : ∃ k, n = k + 1 := ⟨n - 1, by omega⟩
  rw [determinan_ofQ k _ (isRect_identitas _), toMatrix_identitas, Matrix.det_one]

/-- Witness for C15 at order 4. -/
theorem determinan_identitas_witness : determinan (ofQ (identitas 4)) = .ok (Val.num 1) :=
  determinan_identitas 4 (by decide)

/-! ## Squareness, subtraction, jagged arrays and termination: claims C16 to C20 -/

theorem isPersegi_eq {A : Matriks} (h : 0 < A.length) :
    _isPersegi A = .ok (decide (A.length = kolom A)) := by
  simp [_isPersegi, panjangBaris_zero h]

theorem isPersegi_false {m n : Nat} {A : Matriks} (hm : 1 ≤ m) (hA : IsRect m n A)
    (hne : m ≠ n) : _isPersegi A = .ok false := by
  rw [isPersegi_eq (by rw [hA.1]; omega), kolom_of_isRect hA (by omega), hA.1]
  simp [hne]

theorem determinan_bukanPersegi {m n : Nat} {A : Matriks} (hm : 1 ≤ m) (hA : IsRect m n A)
    (hne : m ≠ n) : determinan A = .error .bukanPersegi :=
  determinan_of_false A (isPersegi_false hm hA hne)

theorem invers_of_determinan_error {A : Matriks} {e : Err} (h : determinan A = .error e) :
    invers A = .error e := by
  unfold invers
  rw [h]
  rfl

/-- C16: for every rectangular matrix `A` whose row count differs from its column count,
`determinan(A)` fails with the NotSquare error and returns no number; in particular it fails
on every 2-by-3 matrix. -/
theorem determinan_notSquare (m n : Nat) (A : Matriks) (hm : 1 ≤ m) (hA : IsRect m n A)
    (hne : m ≠ n) :
    determinan A = .error Err.bukanPersegi ∧
    Err.bukanPersegi.kind = some ErrorKind.NotSquare ∧
    (∀ v, determinan A ≠ .ok v) ∧
    (∀ B : Matriks, IsRect 2 3 B → determinan B = .error Err.bukanPersegi) := by
  have h := determinan_bukanPersegi hm hA hne
  refine ⟨h, rfl, ?_, ?_⟩
  · intro v hv
    rw [h] at hv
    cases hv
  · intro B hB
    exact determinan_bukanPersegi (by decide) hB (by decide)

/-- Witness for C16 at the 2-by-3 matrix `[[1,2,3],[4,5,6]]`. -/
theorem determinan_notSquare_witness :
    determinan (ofQ [[1, 2, 3], [4, 5, 6]]) = .error Err.bukanPersegi ∧
    Err.bukanPersegi.kind = some ErrorKind.NotSquare ∧
    (∀ v, determinan (ofQ [[1, 2, 3], [4, 5, 6]]) ≠ .ok v) ∧
    (∀ B : Matriks, IsRect 2 3 B → determinan B = .error Err.bukanPersegi) :=
  determinan_notSquare 2 3 (ofQ [[1, 2, 3], [4, 5, 6]]) (by decide) (by decide) (by decide)

/-- C17: for every rectangular matrix `A` whose row count differs from its column count,
`invers(A)` fails with the NotSquare error, never with Singular and never with a result: the
squareness check of `determinan` fails first, so no determinant value exists that could be
compared with zero. -/
theorem invers_notSquare (m n : Nat) (A : Matriks) (hm : 1 ≤ m) (hA : IsRect m n A)
    (hne : m ≠ n) :
    invers A = .error Err.bukanPersegi ∧
    Err.bukanPersegi.kind = some ErrorKind.NotSquare ∧
    invers A ≠ .error Err.singular ∧
    (∀ C, invers A ≠ .ok C) ∧
    _isPersegi A = .ok false ∧
    (∀ v, determinan A ≠ .ok v) := by
  have hdet := determinan_bukanPersegi hm hA hne
  have h := invers_of_determinan_error hdet
  refine ⟨h, rfl, ?_, ?_, isPersegi_false hm hA hne, ?_⟩
  · rw [h]
    intro hc
    cases hc
  · intro C hC
    rw [h] at hC
    cases hC
  · intro v hv
    rw [hdet] at hv
    cases hv

/-- Witness for C17 at the 3-by-2 matrix `[[1,2],[3,4],[5,6]]`. -/
theorem invers_notSquare_witness :
    invers (ofQ [[1, 2], [3, 4], [5, 6]]) = .error Err.bukanPersegi ∧
    Err.bukanPersegi.kind = some ErrorKind.NotSquare ∧
    invers (ofQ [[1, 2], [3, 4], [5, 6]]) ≠ .error Err.singular ∧
    (∀ C, invers (ofQ [[1, 2], [3, 4], [5, 6]]) ≠ .ok C) ∧
    _isPersegi (ofQ [[1, 2], [3, 4], [5, 6]]) = .ok false ∧
    (∀ v, determinan (ofQ [[1, 2], [3, 4], [5, 6]]) ≠ .ok v) :=
  invers_notSquare 3 2 (ofQ [[1, 2], [3, 4], [5, 6]]) (by decide) (by decide) (by decide)

theorem isOrdoSama_true_iff (A B : Matriks) :
    _isOrdoSama A B = .ok true ↔ A.length = B.length ∧ 0 < A.length ∧ kolom A = kolom B := by
  unfold _isOrdoSama
  by_cases hlen : A.length = B.length
  · rw [if_pos hlen]
    by_cases hpos : 0 < A.length
    · rw [panjangBaris_zero hpos, panjangBaris_zero (A := B) (by omega)]
      have hB : 0 < B.length := by omega
      simp [hlen, hB]
    · have hA : A = [] := List.eq_nil_of_length_eq_zero (by omega)
      subst hA
      simp [panjangBaris_nil]
  · rw [if_neg hlen]
    simp [hlen]

theorem tambah_of_ordo_error {A B : Matriks} {e : Err} (h : _isOrdoSama A B = .error e) :
    tambah A B = .error e := by
  unfold tambah
  rw [h]
  rfl

theorem tambah_of_ordo_false {A B : Matriks} (h : _isOrdoSama A B = .ok false) :
    tambah A B = .error .ordoBeda := by
  unfold tambah
  rw [h]
  rfl

theorem tambah_of_ordo_true {A B : Matriks} (h : _isOrdoSama A B = .ok true) :
    tambah A B = .ok (tabel A.length (kolom A) fun i j => sel A i j + sel B i j) := by
  obtain ⟨h1, h2, h3⟩ := (isOrdoSama_true_iff A B).mp h
  exact tambah_eq h1 h2 h3

theorem isOrdoSama_tabel (A B : Matriks) (f : Nat → Nat → Val) :
    _isOrdoSama A (tabel B.length (kolom B) f) = _isOrdoSama A B := by
  unfold _isOrdoSama
  rw [length_tabel]
  by_cases hpos : 0 < B.length
  · rw [panjangBaris_zero (A := B) hpos,
      panjangBaris_zero (A := tabel B.length (kolom B) f) (by rw [length_tabel]; exact hpos),
      kolom_tabel hpos]
  · have hB : B = [] := List.eq_nil_of_length_eq_zero (by omega)
    subst hB
    rfl

theorem tambah_error_tabel (A B : Matriks) (f : Nat → Nat → Val) (e : Err) :
    tambah A (tabel B.length (kolom B) f) = .error e ↔ tambah A B = .error e := by
  have hordo := isOrdoSama_tabel A B f
  cases h : _isOrdoSama A B with
  | error e' =>
    rw [tambah_of_ordo_error h, tambah_of_ordo_error (hordo.trans h)]
  | ok b =>
    cases b with
    | false => rw [tambah_of_ordo_false h, tambah_of_ordo_false (hordo.trans h)]
    | true =>
      rw [tambah_of_ordo_true h, tambah_of_ordo_true (hordo.trans h)]
      constructor <;> intro hc <;> cases hc

theorem kurang_error_iff (A B : Matriks) (e : Err) :
    kurang A B = .error e ↔ tambah A B = .error e := by
  unfold kurang
  rw [kaliSkalar_eq, bind_ok]
  exact tambah_error_tabel A B _ e

theorem kaliSkalar_ofQ {m n : Nat} {B : List (List ℚ)} (hB : IsRect m n B) (k : ℚ) :
    kaliSkalar (ofQ B) (Val.num k) = .ok (ofQ (tabel m n fun i j => selQ B i j * k)) := by
  rw [kaliSkalar_eq, length_ofQ, hB.1, ofQ_tabel]
  congr 1
  by_cases hm : 0 < m
  · rw [kolom_ofQ, kolom_of_isRect hB hm]
    exact tabel_congr fun i j hi hj => by rw [sel_ofQ hB hi hj, num_mul]
  · have : m = 0 := by omega
    subst this
    rfl

theorem kurang_ofQ {m n : Nat} {A B : List (List ℚ)} (hm : 1 ≤ m) (hA : IsRect m n A)
    (hB : IsRect m n B) :
    kurang (ofQ A) (ofQ B) = .ok (ofQ (tabel m n fun i j => selQ A i j - selQ B i j)) := by
  unfold kurang
  rw [kaliSkalar_ofQ hB, bind_ok, tambah_ofQ hm hA (isRect_tabel _ _ _)]
  congr 2
  apply tabel_congr
  intro i j hi hj
  rw [selQ_tabel _ hi hj]
  ring

/-- C18: for every rectangular `m`-by-`n` matrix `B` of exact numbers and scalar `k`,
`kaliSkalar(B, k)` is the `m`-by-`n` matrix with entry `(i, j) = B[i][j] * k`; for every `A`
of the same dimensions the adapter's subtraction `tambah(A, kaliSkalar(B, -1))` has entry
`(i, j) = A[i][j] - B[i][j]`; and for all matrices the subtraction fails with ShapeMismatch
exactly when `tambah` does. -/
theorem kaliSkalar_kurang (m n : Nat) (A B : List (List ℚ)) (k : ℚ) (hm : 1 ≤ m)
    (hA : IsRect m n A) (hB : IsRect m n B) :
    (∃ C : List (List ℚ), kaliSkalar (ofQ B) (Val.num k) = .ok (ofQ C) ∧ IsRect m n C ∧
      ∀ i j, i < m → j < n → selQ C i j = selQ B i j * k) ∧
    (∃ D : List (List ℚ), kurang (ofQ A) (ofQ B) = .ok (ofQ D) ∧ IsRect m n D ∧
      ∀ i j, i < m → j < n → selQ D i j = selQ A i j - selQ B i j) ∧
    (∀ X Y : Matriks,
      (∃ e, kurang X Y = .error e ∧ e.kind = some ErrorKind.ShapeMismatch)
        ↔ (∃ e, tambah X Y = .error e ∧ e.kind = some ErrorKind.ShapeMismatch)) := by
  refine ⟨⟨_, kaliSkalar_ofQ hB k, isRect_tabel _ _ _, ?_⟩,
    ⟨_, kurang_ofQ hm hA hB, isRect_tabel _ _ _, ?_⟩, ?_⟩
  · intro i j hi hj
    rw [selQ_tabel _ hi hj]
  · intro i j hi hj
    rw [selQ_tabel _ hi hj]
  · intro X Y
    constructor
    · rintro ⟨e, he, hk⟩
      exact ⟨e, (kurang_error_iff X Y e).mp he, hk⟩
    · rintro ⟨e, he, hk⟩
      exact ⟨e, (kurang_error_iff X Y e).mpr he, hk⟩

/-- Witness for C18 at `A = [[5,7],[9,11]]`, `B = [[1,2],[3,4]]` and `k = 3`. -/
theorem kaliSkalar_kurang_witness :
    (∃ C : List (List ℚ), kaliSkalar (ofQ [[1, 2], [3, 4]]) (Val.num 3) = .ok (ofQ C) ∧
      IsRect 2 2 C ∧ ∀ i j, i < 2 → j < 2 → selQ C i j = selQ [[1, 2], [3, 4]] i j * 3) ∧
    (∃ D : List (List ℚ), kurang (ofQ [[5, 7], [9, 11]]) (ofQ [[1, 2], [3, 4]]) = .ok (ofQ D) ∧
      IsRect 2 2 D ∧
      ∀ i j, i < 2 → j < 2 →
        selQ D i j = selQ [[5, 7], [9, 11]] i j - selQ [[1, 2], [3, 4]] i j) ∧
    (∀ X Y : Matriks,
      (∃ e, kurang X Y = .error e ∧ e.kind = some ErrorKind.ShapeMismatch)
        ↔ (∃ e, tambah X Y = .error e ∧ e.kind = some ErrorKind.ShapeMismatch)) :=
  kaliSkalar_kurang 2 2 [[5, 7], [9, 11]] [[1, 2], [3, 4]] 3 (by decide) (by decide)
    (by decide)

theorem isPersegi_true_iff (A : Matriks) :
    _isPersegi A = .ok true ↔ 0 < A.length ∧ A.length = kolom A := by
  by_cases hpos : 0 < A.length
  · rw [isPersegi_eq hpos]
    simp [hpos]
  · have hA : A = [] := List.eq_nil_of_length_eq_zero (by omega)
    subst hA
    simp [_isPersegi, panjangBaris_nil]

/-- C19: shape validation inspects only the first row's length.  `_isOrdoSama` and
`_isPersegi` depend on the row count and the length of row 0 alone; for the jagged
`A = [[1,2],[3]]` and `B = [[1,2],[3,4]]`, `_isOrdoSama(A, B)` is true and `tambah(A, B)` does
not fail with ShapeMismatch (it returns `[[2,4],[6,NaN]]`); and `_isPersegi` accepts the
jagged `A`, whose row count equals the length of its first row. -/
theorem validasi_baris_pertama :
    (∀ A B : Matriks,
      _isOrdoSama A B = .ok true ↔ A.length = B.length ∧ 0 < A.length ∧ kolom A = kolom B) ∧
    (∀ A : Matriks, _isPersegi A = .ok true ↔ 0 < A.length ∧ A.length = kolom A) ∧
    (¬ ∃ n, IsRect 2 n (ofQ [[1, 2], [3]])) ∧
    (ofQ [[1, 2], [3]]).length = (ofQ [[1, 2], [3, 4]]).length ∧
    kolom (ofQ [[1, 2], [3]]) = kolom (ofQ [[1, 2], [3, 4]]) ∧
    _isOrdoSama (ofQ [[1, 2], [3]]) (ofQ [[1, 2], [3, 4]]) = .ok true ∧
    tambah (ofQ [[1, 2], [3]]) (ofQ [[1, 2], [3, 4]])
      = .ok [[Val.num 2, Val.num 4], [Val.num 6, Val.nan]] ∧
    (∀ e, tambah (ofQ [[1, 2], [3]]) (ofQ [[1, 2], [3, 4]]) = .error e →
      e.kind ≠ some ErrorKind.ShapeMismatch) ∧
    _isPersegi (ofQ [[1, 2], [3]]) = .ok true := by
  have hordo : _isOrdoSama (ofQ [[1, 2], [3]]) (ofQ [[1, 2], [3, 4]]) = .ok true :=
    (isOrdoSama_true_iff _ _).mpr ⟨rfl, by decide, rfl⟩
  have htambah : tambah (ofQ [[1, 2], [3]]) (ofQ [[1, 2], [3, 4]])
      = .ok [[Val.num 2, Val.num 4], [Val.num 6, Val.nan]] := by
    rw [tambah_of_ordo_true hordo]
    have hnan : Val.undefined + Val.num 4 = Val.nan := rfl
    simp [tabel, sel, kolom, ofQ, List.range_succ, hnan]
    norm_num
  refine ⟨isOrdoSama_true_iff, isPersegi_true_iff, ?_, rfl, rfl, hordo, htambah, ?_,
    (isPersegi_true_iff _).mpr ⟨by decide, rfl⟩⟩
  · rintro ⟨n, -, hrow⟩
    have h1 := hrow [Val.num 1, Val.num 2] (by simp [ofQ])
    have h2 := hrow [Val.num 3] (by simp [ofQ])
    simp at h1 h2
    omega
  · intro e he
    rw [htambah] at he
    cases he

/-- C20: for every `n >= 1` and every rectangular `n`-by-`n` matrix `A` of exact numbers,
`determinan(A)` returns a number and raises no error; for `n > 2` each recursive call is made
on the minor with row 0 and column `j` removed, which is rectangular `(n-1)`-by-`(n-1)`, has
fewer rows than `A`, passes the squareness check and itself yields a number, and the read
`A[0][j]` is in range. -/
theorem determinan_total (n : Nat) (A : List (List ℚ)) (hn : 1 ≤ n) (hA : IsRect n n A) :
    (∃ d : ℚ, determinan (ofQ A) = .ok (Val.num d)) ∧
    (2 < n → ∀ j, j < n →
      IsRect (n - 1) (n - 1) (((ofQ A).drop 1).map (fun baris => saring baris j)) ∧
      (((ofQ A).drop 1).map (fun baris => saring baris j)).length < (ofQ A).length ∧
      _isPersegi (((ofQ A).drop 1).map (fun baris => saring baris j)) = .ok true ∧
      (∃ dj : ℚ,
        determinan (((ofQ A).drop 1).map (fun baris => saring baris j)) = .ok (Val.num dj)) ∧
      elemen (ofQ A) 0 j = .ok (Val.num (selQ A 0 j))) := by
  obtain ⟨k, rfl⟩ : ∃ k, n = k + 1 := ⟨n - 1, by omega⟩
  refine ⟨⟨_, determinan_ofQ k A hA⟩, ?_⟩
  intro hk j hj
  obtain ⟨k, rfl⟩ : ∃ k', k = k' + 1 := ⟨k - 1, by omega⟩
  have hmin : IsRect (k + 1) (k + 1) (minorQ A 0 j) := isRect_minorQ hA (by omega) hj
  have hl : (ofQ A).length = k + 2 := by rw [length_ofQ]; exact hA.1
  rw [ofQ_drop_minorQ]
  refine ⟨?_, ?_, isPersegi_ofQ hmin, ⟨_, determinan_ofQ k _ hmin⟩, ?_⟩
  · constructor
    · rw [length_ofQ]; exact hmin.1
    · intro baris hb
      simp only [ofQ, List.mem_map] at hb
      obtain ⟨r, hr, rfl⟩ := hb
      rw [List.length_map]
      exact hmin.2 r hr
  · rw [length_ofQ, hmin.1, hl]
    omega
  · rw [elemen_of_lt (by omega), sel_ofQ hA (by omega) hj]

/-- Witness for C20 at the 3-by-3 matrix `[[1,0,2],[-1,3,1],[2,2,1]]`. -/
theorem determinan_total_witness :
    (∃ d : ℚ, determinan (ofQ [[1, 0, 2], [-1, 3, 1], [2, 2, 1]]) = .ok (Val.num d)) ∧
    (2 < 3 → ∀ j, j < 3 →
      IsRect (3 - 1) (3 - 1)
        (((ofQ [[1, 0, 2], [-1, 3, 1], [2, 2, 1]]).drop 1).map (fun baris => saring baris j)) ∧
      (((ofQ [[1, 0, 2], [-1, 3, 1], [2, 2, 1]]).drop 1).map
          (fun baris => saring baris j)).length
        < (ofQ [[1, 0, 2], [-1, 3, 1], [2, 2, 1]]).length ∧
      _isPersegi
        (((ofQ [[1, 0, 2], [-1, 3, 1], [2, 2, 1]]).drop 1).map (fun baris => saring baris j))
        = .ok true ∧
      (∃ dj : ℚ,
        determinan
          (((ofQ [[1, 0, 2], [-1, 3, 1], [2, 2, 1]]).drop 1).map
            (fun baris => saring baris j)) = .ok (Val.num dj)) ∧
      elemen (ofQ [[1, 0, 2], [-1, 3, 1], [2, 2, 1]]) 0 j
        = .ok (Val.num (selQ [[1, 0, 2], [-1, 3, 1], [2, 2, 1]] 0 j))) :=
  determinan_total 3 [[1, 0, 2], [-1, 3, 1], [2, 2, 1]] (by decide) (by decide)

end KalkulatorMatriks
